import Mathlib

/-!
Verification of the outline-go-tun2socks DoH core: a shallow embedding of
the IP preference set (`ipmap.IPSet` / `intra.ipSet`), the hostname→set map,
the `doQuery`/`Query` operation of the DoH transport, the `preferAddr`
rotation of the dialer, and `forwardQuery` of the TCP forwarder, together with theorems about the
specified properties.

External collaborators (the system resolver `net.LookupIP`, the IP parser
`net.ParseIP`, the HTTP client, and the byte-stream writer) are modelled as
parameters: each operation that consumes their output takes that output as
an explicit argument, exactly as the surrounding code receives it.
-/

namespace DoH

/-- A `net.IP` is a byte slice (length 4 for IPv4, 16 for IPv6). -/
abbrev IP := List Nat

/-- The 12-byte marker that an IPv6 address carrying an IPv4 address starts
with (`v4InV6Prefix` in the Go standard library). -/
def v4InV6 : List Nat := [0, 0, 0, 0, 0, 0, 0, 0, 0, 0, 255, 255]

/-- `net.IP.Equal`: byte equality at equal lengths; an IPv4 address equals
the IPv6 form that embeds it behind `v4InV6`. -/
def ipEqual (a b : IP) : Bool :=
  if a.length = b.length then a == b
  else if a.length = 4 && b.length = 16 then
    (b.take 12 == v4InV6) && (b.drop 12 == a)
  else if a.length = 16 && b.length = 4 then
    (a.take 12 == v4InV6) && (a.drop 12 == b)
  else false

/-- The membership scan used by `IPSet.Add` / `ipSet.add` / the free function
`add` of the transport: does `ips` already hold an address equal to `ip`? -/
def hasIP (ips : List IP) (ip : IP) : Bool :=
  ips.any fun old => ipEqual old ip

/-- `ipmap.IPSet` (part_001) and `intra.ipSet` (part_004): the known IPs for
one host, plus at most one confirmed-working IP. -/
structure IPSet where
  ips : List IP
  confirmed : Option IP
deriving DecidableEq

/-- `IPSet.Add` (part_001) / `ipSet.add` (part_004): union the addresses
resolved for the hostname into the set.  The output of the resolver is the
`resolved` argument; a resolver failure is the empty list.  Each new address
is checked against the set as it grows. -/
def IPSet.Add (s : IPSet) (resolved : List IP) : IPSet :=
  { s with
    ips := resolved.foldl (fun acc ip => if hasIP acc ip then acc else acc ++ [ip]) s.ips }

/-- `IPSet.Empty` (part_001): `len(s.ips) == 0`. -/
def IPSet.Empty (s : IPSet) : Bool :=
  s.ips.length == 0

/-- `ipSet.empty` (part_004): the body is `return len(s.ips) > 0`. -/
def IPSet.empty (s : IPSet) : Bool :=
  decide (0 < s.ips.length)

/-- `IPSet.Confirm` (part_001) / `ipSet.confirm` (part_004): `parsed` is the
result of `net.ParseIP(ipstr)` (`none` for an invalid string).  A valid IP is
installed as the confirmed address unconditionally; an invalid string is
ignored. -/
def IPSet.Confirm (s : IPSet) (parsed : Option IP) : IPSet :=
  match parsed with
  | some ip => { s with confirmed := some ip }
  | none => s

/-- `IPSet.Disconfirm` (part_001) / `ipSet.disconfirm` (part_004): clear the
confirmed address if it equals `ip` (`ip.Equal(nil)` is false for any
nonempty `ip`, and clearing `nil` is a no-op, so `confirmed = nil` is left
unchanged either way). -/
def IPSet.Disconfirm (s : IPSet) (ip : IP) : IPSet :=
  match s.confirmed with
  | some c => if ipEqual ip c then { s with confirmed := none } else s
  | none => s

/-- The confirmed-membership invariant of the spec: the confirmed IP, if
present, is a member of the ordered sequence (under IP equality). -/
def confirmedInSet (s : IPSet) : Bool :=
  match s.confirmed with
  | some c => hasIP s.ips c
  | none => true

/-! ### The hostname→set map (part_001 `ipMap.Get`)

`Get` runs in two lock-atomic phases: a shared-lock read that returns an
installed set if present, and — after building a fresh set outside any
lock — an exclusive-lock phase that installs the fresh set only if the
hostname is still absent, otherwise discards it and returns the installed
one.  Sets are identified by allocation ids; the map is an association
list of (hostname, set id), consed on install exactly as the Go map is
written at one key. -/

abbrev SetId := Nat

abbrev HostMap := List (String × SetId)

/-- Read `m.m[hostname]` (the phase-1 shared-lock lookup of `Get`). -/
def lookupHost (m : HostMap) (h : String) : Option SetId :=
  match m.find? (fun p => p.1 == h) with
  | some p => some p.2
  | none => none

/-- Phase 2 of `Get` (under the exclusive lock): if another call installed a
set for `h` while we were building `sid`, discard `sid` and return the
installed set; otherwise install `sid` and return it. -/
def install (m : HostMap) (h : String) (sid : SetId) : HostMap × SetId :=
  match lookupHost m h with
  | some s2 => (m, s2)
  | none => ((h, sid) :: m, sid)

/-- Run a sequence of interleaved phase-2 steps (the only writers of the
map), in order.  Each list element is the hostname and freshly built set id
of one in-flight `Get`. -/
def runInstalls (m : HostMap) : List (String × SetId) → HostMap
  | [] => m
  | e :: rest => runInstalls (install m e.1 e.2).1 rest

/-! ### The DoH transport (part_003 `doQuery`)

Status taxonomy of part_003, in declaration (iota) order. -/

def Complete : Nat := 0
def SendFailed : Nat := 1
def HTTPError : Nat := 2
def BadQuery : Nat := 3
def BadResponse : Nat := 4
def InternalError : Nat := 5

/-- The behaviour of the external HTTP machinery for one query, consumed by
`doQuery` exactly where the Go code consumes it: whether
`http.NewRequest` succeeds, the outcome of `client.Do` (`none` = transport
error, `some code` = an HTTP response with that status code), and the body
bytes that `ioutil.ReadAll` yields on the 200 path. -/
structure HTTPEnv where
  reqOk : Bool
  doResult : Option Nat
  body : List Nat
deriving DecidableEq

/-- Overwrite the first two bytes of a buffer (of length ≥ 2) — the Go
assignments `q[0], q[1] = a, b`. -/
def withID (buf : List Nat) (a b : Nat) : List Nat :=
  a :: b :: buf.drop 2

/-- What `doQuery` (part_003) leaves behind: the response (`none` = the Go
nil slice), the status of the classified error (`none` = nil `qerr`), and the
query buffer of the caller as it stands on return.  (The best-effort captured
server address is omitted: no claim concerns it.) -/
structure QueryOutcome where
  response : Option (List Nat)
  qerr : Option Nat
  buf : List Nat
deriving DecidableEq

/-- `doQuery` (part_003 lines 179–226).  The query ID is saved and zeroed
before the request is built; it is restored — and patched into a response of
length ≥ 2 — only after the body of a 200 response has been read.  Each earlier
`return` leaves the buffer as it stands.  (A `ReadAll` error on the 200 path
is assigned to a local `err` that is never returned: `qerr` stays nil.) -/
def doQuery (q : List Nat) (env : HTTPEnv) : QueryOutcome :=
  if q.length < 2 then
    { response := none, qerr := some BadQuery, buf := q }
  else
    let id0 := q.getD 0 0
    let id1 := q.getD 1 0
    let qz := withID q 0 0
    if env.reqOk = false then
      { response := none, qerr := some InternalError, buf := qz }
    else
      match env.doResult with
      | none => { response := none, qerr := some SendFailed, buf := qz }
      | some code =>
        if code ≠ 200 then
          { response := none, qerr := some HTTPError, buf := qz }
        else
          let response := env.body
          let response := if 2 ≤ response.length then withID response id0 id1 else response
          { response := some response, qerr := none, buf := withID qz id0 id1 }

/-! ### Construction of the preference list (`NewDoHTransport`)

Resolver outputs appear as explicit lists: `hostIPs` is what
`net.LookupIP` returned for the hostname of the URL, and `fallbacks` holds, in
order, what it returned for each entry of the fallback list. -/

/-- `add` (part_003 lines 96–111): append onto `dest` the members of `src`
not already present under IP equality. -/
def add (dest src : List IP) : List IP :=
  src.foldl (fun d new => if hasIP d new then d else d ++ [new]) dest

/-- part_003 `NewDoHTransport` lines 142–147: `t.ips` starts as the resolved
addresses of the host verbatim, then the resolved addresses of each fallback are
folded in through `add`. -/
def buildIPs (hostIPs : List IP) (fallbacks : List (List IP)) : List IP :=
  fallbacks.foldl add hostIPs

/-- `addAddrs` (doh.go lines 37–40 and part_002 lines 65–68):
`t.addrs = append(t.addrs, resolved...)` — no duplicate check. -/
def addAddrs (dest resolved : List IP) : List IP :=
  dest ++ resolved

/-- doh.go / part_002 `NewDoHTransport`: `addAddrs` on the host, then on
each fallback in order. -/
def buildAddrs (hostIPs : List IP) (fallbacks : List (List IP)) : List IP :=
  fallbacks.foldl addAddrs hostIPs

/-- Modelled from the spec: "deduplicated under IP equality, preserving
insertion order" — keep the first occurrence of each IP-equality class, in
order. -/
def dedupFirst (l : List IP) : List IP :=
  l.foldl (fun acc x => if hasIP acc x then acc else acc ++ [x]) []

/-- No address appears twice under IP equality: every element differs from
every later element. -/
def ipNodup : List IP → Bool
  | [] => true
  | x :: xs => xs.all (fun y => !ipEqual x y) && ipNodup xs

/-! ### The promotion step of the dialer (`preferAddr`, doh.go lines 50–60) -/

/-- The Go builtin `copy(l[pos:], src)` on a slice viewed as a list: overwrite
`min (src.length) (l.length - pos)` elements of `l` starting at `pos`. -/
def goCopy (l : List IP) (pos : Nat) (src : List IP) : List IP :=
  l.take pos ++ src.take (l.length - pos) ++ l.drop (pos + src.length)

/-- `preferAddr` (doh.go lines 50–60 / part_002 lines 78–88): given the
snapshot `addrs` that the dialer iterated and the winning index `i`, rewrite
the stored list `stored` in place: `t.addrs[0] = addrs[i]`;
`copy(t.addrs[1:i+1], addrs[:i])`; `copy(t.addrs[i+1:], addrs[i+1:])`.
For `i = 0` the list is left untouched. -/
def preferAddr (stored addrs : List IP) (i : Nat) : List IP :=
  if i = 0 then stored
  else
    let s1 := goCopy stored 0 [addrs.getD i []]
    let s2 := goCopy s1 1 (addrs.take i)
    goCopy s2 (i + 1) (addrs.drop (i + 1))

/-! ### The response write of the TCP forwarder (`forwardQuery`, part_003) -/

/-- `binary.BigEndian.PutUint16` of a length that fits in 16 bits: the two
bytes `byte(v >> 8), byte(v)`. -/
def be16 (n : Nat) : List Nat :=
  [n / 256 % 256, n % 256]

/-- `forwardQuery` (part_003 lines 254–277), viewed through the write calls
it issues on the stream.  `qres` is the result of the transport (`none` = a query
error); `writeN` is the answer of the stream to one `Write` call (`none` = write
error, `some n` = n bytes written).  Returns the list of buffers handed to
`Write`, in order, and whether `forwardQuery` returned nil.  On the success
path the length prefix and the response are copied into one buffer
`rlbuf` and issued as a single `Write`. -/
def forwardQuery (qres : Option (List Nat)) (writeN : List Nat → Option Nat) :
    List (List Nat) × Bool :=
  match qres with
  | none => ([], false)
  | some resp =>
    if resp.length > 65535 then ([], false)
    else
      let rlbuf := be16 resp.length ++ resp
      match writeN rlbuf with
      | none => ([rlbuf], false)
      | some n => ([rlbuf], n == rlbuf.length)
/-! ## Helper lemmas -/

/-- Folding a union over a concatenation is the union of the two folds. -/
theorem add_append (d s1 s2 : List IP) : add d (s1 ++ s2) = add (add d s1) s2 := by
  simp [add, List.foldl_append]

/-- The constructed preference list is the union of the host addresses with
the concatenation of all fallback resolutions. -/
theorem buildIPs_eq_add_flatten (hostIPs : List IP) (fallbacks : List (List IP)) :
    buildIPs hostIPs fallbacks = add hostIPs fallbacks.flatten := by
  induction fallbacks generalizing hostIPs with
  | nil => simp [buildIPs, add]
  | cons fb rest ih =>
    calc buildIPs hostIPs (fb :: rest) = buildIPs (add hostIPs fb) rest := rfl
    _ = add (add hostIPs fb) rest.flatten := ih _
    _ = add hostIPs (fb ++ rest.flatten) := (add_append _ _ _).symm
    _ = add hostIPs ((fb :: rest).flatten) := by rw [List.flatten_cons]

/-- Deduplicating a concatenation equals deduplicating the left part and
unioning the right part into it. -/
theorem dedupFirst_append (l1 l2 : List IP) :
    dedupFirst (l1 ++ l2) = add (dedupFirst l1) l2 := by
  simp [dedupFirst, add, List.foldl_append]

/-- Unioning addresses that are pairwise fresh for the accumulator (and
mutually distinct) just appends them. -/
theorem add_of_fresh (l : List IP) : ∀ acc : List IP,
    (∀ y ∈ l, hasIP acc y = false) → ipNodup l = true → add acc l = acc ++ l := by
  induction l with
  | nil => intro acc _ _; simp [add]
  | cons x xs ih =>
    intro acc hfresh hnd
    have hx : hasIP acc x = false := hfresh x (by simp)
    have hnd2 : ipNodup xs = true := by
      simp only [ipNodup, Bool.and_eq_true] at hnd
      exact hnd.2
    have hxy : ∀ y ∈ xs, ipEqual x y = false := by
      intro y hy
      simp only [ipNodup, Bool.and_eq_true, List.all_eq_true] at hnd
      simpa using hnd.1 y hy
    have hstep : add acc (x :: xs) = add (acc ++ [x]) xs := by
      show List.foldl _ acc (x :: xs) = _
      rw [List.foldl_cons, if_neg (by simp [hx])]
      rfl
    rw [hstep, ih (acc ++ [x]) ?_ hnd2]
    · simp
    · intro y hy
      have h1 : hasIP acc y = false := hfresh y (by simp [hy])
      have h2 : ipEqual x y = false := hxy y hy
      unfold hasIP at h1 ⊢
      simp only [List.any_append, List.any_cons, List.any_nil, Bool.or_false]
      rw [h1, h2]
      rfl

/-- A duplicate-free list is a fixed point of deduplication. -/
theorem dedupFirst_of_nodup (l : List IP) (h : ipNodup l = true) : dedupFirst l = l := by
  have hfresh : ∀ y ∈ l, hasIP ([] : List IP) y = false := fun y _ => rfl
  have := add_of_fresh l [] hfresh h
  simpa [add, dedupFirst] using this

/-- Appending one fresh address keeps a list duplicate-free. -/
theorem ipNodup_append_singleton (x : IP) : ∀ d : List IP,
    ipNodup d = true → hasIP d x = false → ipNodup (d ++ [x]) = true := by
  intro d
  induction d with
  | nil => intro _ _; simp [ipNodup]
  | cons y d2 ih =>
    intro hnd hx
    have hyx : ipEqual y x = false := by
      unfold hasIP at hx
      simp only [List.any_cons, Bool.or_eq_false_iff] at hx
      exact hx.1
    have hx2 : hasIP d2 x = false := by
      unfold hasIP at hx ⊢
      simp only [List.any_cons, Bool.or_eq_false_iff] at hx
      exact hx.2
    simp only [ipNodup, Bool.and_eq_true, List.all_eq_true] at hnd
    simp only [List.cons_append, ipNodup, Bool.and_eq_true, List.all_eq_true]
    refine ⟨?_, ih hnd.2 hx2⟩
    intro z hz
    rcases List.mem_append.mp hz with hz2 | hz2
    · exact hnd.1 z hz2
    · simp only [List.mem_singleton] at hz2
      subst hz2
      simp [hyx]

/-- The union `add` preserves freedom from duplicates. -/
theorem add_nodup (src : List IP) : ∀ dest : List IP,
    ipNodup dest = true → ipNodup (add dest src) = true := by
  induction src with
  | nil => intro dest h; simpa [add] using h
  | cons x xs ih =>
    intro dest h
    have hstep : add dest (x :: xs)
        = add (if hasIP dest x then dest else dest ++ [x]) xs := rfl
    rw [hstep]
    by_cases hx : hasIP dest x = true
    · rw [if_pos hx]; exact ih dest h
    · rw [if_neg hx]
      have hx2 : hasIP dest x = false := by simpa using hx
      exact ih _ (ipNodup_append_singleton x dest h hx2)

/-- One phase-2 install step never disturbs an existing binding. -/
theorem lookupHost_install_preserve (m : HostMap) (h h2 : String) (sid s : SetId)
    (hl : lookupHost m h = some s) : lookupHost (install m h2 sid).1 h = some s := by
  unfold install
  cases hl2 : lookupHost m h2 with
  | some s2 => simpa using hl
  | none =>
    by_cases he : h2 = h
    · subst he; rw [hl] at hl2; cases hl2
    · dsimp only
      unfold lookupHost
      rw [List.find?_cons_of_neg _ (by simp [he])]
      exact hl

/-- Running interleaved install steps composes over concatenation. -/
theorem runInstalls_append (m : HostMap) (l1 l2 : List (String × SetId)) :
    runInstalls m (l1 ++ l2) = runInstalls (runInstalls m l1) l2 := by
  induction l1 generalizing m with
  | nil => rfl
  | cons e rest ih => simp [runInstalls, ih]

/-- Any sequence of install steps preserves an existing binding. -/
theorem runInstalls_preserve (m : HostMap) (l : List (String × SetId)) (h : String) (s : SetId)
    (hl : lookupHost m h = some s) : lookupHost (runInstalls m l) h = some s := by
  induction l generalizing m with
  | nil => exact hl
  | cons e rest ih => exact ih _ (lookupHost_install_preserve m h e.1 e.2 s hl)

/-- An install against an existing binding discards the fresh set and hands
back the installed one, leaving the map untouched. -/
theorem install_found (m : HostMap) (h : String) (sid s : SetId)
    (hl : lookupHost m h = some s) : install m h sid = (m, s) := by
  unfold install; rw [hl]

/-! ## Claim theorems -/

/-- Claim C1, counterexample: with the query buffer `[1, 2]` and a send
failure (`client.Do` errors), `doQuery` returns with the buffer still zeroed
at bytes 0 and 1 — not equal to its value `[1, 2]` before the call, refuting
restoration on every exit path. -/
theorem doQuery_sendfail_not_restored_cex :
    (doQuery [1, 2] { reqOk := true, doResult := none, body := [] }).buf = [0, 0] ∧
    ([0, 0] : List Nat) ≠ [1, 2] := by decide

/-- Claim C1, amended: for a query of length ≥ 2, bytes 0–1 of the buffer
are restored exactly on the successful (HTTP 200) exit of the query
operation; on the request-construction-failure, send-failure and non-200
exits they are left zeroed. -/
theorem doQuery_restores_id_only_on_success (q : List Nat) (env : HTTPEnv)
    (hq : 2 ≤ q.length) :
    (env.reqOk = true → env.doResult = some 200 → (doQuery q env).buf = q) ∧
    (env.reqOk = false ∨ env.doResult = none ∨ (∃ c, env.doResult = some c ∧ c ≠ 200) →
      (doQuery q env).buf = withID q 0 0) := by
  rcases q with _ | ⟨a, _ | ⟨b, rest⟩⟩
  · simp at hq
  · simp at hq
  · have hne : ¬((a :: b :: rest).length < 2) := by
      simp only [List.length_cons]; omega
    constructor
    · intro hok hdo
      unfold doQuery
      rw [if_neg hne]
      simp [hok, hdo, withID, List.getD_cons_zero, List.getD_cons_succ]
    · intro hfail
      unfold doQuery
      rw [if_neg hne]
      rcases hfail with hro | hdo | ⟨c, hdo, hc⟩
      · simp [hro, withID]
      · by_cases hro : env.reqOk = false
        · simp [hro, withID]
        · simp [hro, hdo, withID]
      · by_cases hro : env.reqOk = false
        · simp [hro, withID]
        · simp [hro, hdo, hc, withID]

/-- Claim C1, witness for the amended theorem at the query `[1, 2, 3]`: the
successful exit restores the buffer; an internal-error exit leaves it
zeroed. -/
theorem doQuery_restores_witness :
    (doQuery [1, 2, 3] { reqOk := true, doResult := some 200, body := [] }).buf = [1, 2, 3] ∧
    (doQuery [1, 2, 3] { reqOk := false, doResult := some 200, body := [] }).buf
      = withID [1, 2, 3] 0 0 :=
  ⟨(doQuery_restores_id_only_on_success [1, 2, 3] ⟨true, some 200, []⟩ (by decide)).1 rfl rfl,
   (doQuery_restores_id_only_on_success [1, 2, 3] ⟨false, some 200, []⟩ (by decide)).2
     (Or.inl rfl)⟩

/-- Claim C2, counterexample: a set whose confirmed IP is a member satisfies
the invariant, but confirming the valid IP 2.2.2.2 — which is not in the
sequence — leaves a confirmed IP outside the sequence:  `Confirm` does not
preserve the membership invariant for every valid IP string. -/
theorem confirm_breaks_membership_cex :
    confirmedInSet { ips := [[1, 1, 1, 1]], confirmed := some [1, 1, 1, 1] } = true ∧
    confirmedInSet (IPSet.Confirm { ips := [[1, 1, 1, 1]], confirmed := some [1, 1, 1, 1] }
      (some [2, 2, 2, 2])) = false := by decide

/-- Claim C2, amended: `Confirm` with a valid IP sets the confirmed slot to
that IP unconditionally; the membership invariant survives the call exactly
when the parsed IP is already a member of the ordered sequence. -/
theorem confirm_sets_unconditionally (s : IPSet) (ip : IP) :
    (IPSet.Confirm s (some ip)).confirmed = some ip ∧
    (hasIP s.ips ip = true → confirmedInSet (IPSet.Confirm s (some ip)) = true) := by
  refine ⟨rfl, fun h => ?_⟩
  simp [IPSet.Confirm, confirmedInSet, h]

/-- Claim C2, witness: confirming the member IP 1.1.1.1 installs it and
keeps the invariant. -/
theorem confirm_sets_unconditionally_witness :
    (IPSet.Confirm { ips := [[1, 1, 1, 1]], confirmed := none } (some [1, 1, 1, 1])).confirmed
      = some [1, 1, 1, 1] ∧
    confirmedInSet (IPSet.Confirm { ips := [[1, 1, 1, 1]], confirmed := none }
      (some [1, 1, 1, 1])) = true := by
  have h := confirm_sets_unconditionally { ips := [[1, 1, 1, 1]], confirmed := none } [1, 1, 1, 1]
  exact ⟨h.1, h.2 (by decide)⟩

/-- Claim C3 (code bug, evaluated at the failing input): on a set with no
IPs, the part_004 `empty` returns `false` — and `true` on a nonempty set —
because its body is `len(s.ips) > 0`, the negation of the is-empty contract;
the part_001 `Empty` of the same state returns `true` as the contract
demands. -/
theorem empty_inverted_in_part004 :
    IPSet.empty { ips := [], confirmed := none } = false ∧
    IPSet.Empty { ips := [], confirmed := none } = true ∧
    IPSet.empty { ips := [[8, 8, 8, 8]], confirmed := none } = true := by decide

/-- Claim C4, counterexample: in the `addAddrs` variants (doh.go, part_002)
a host resolving to 8.8.8.8 with one fallback also resolving to 8.8.8.8
yields the stored list `[8.8.8.8, 8.8.8.8]` — the same IP twice, refuting
deduplication of the constructed list. -/
theorem buildAddrs_duplicate_cex :
    buildAddrs [[8, 8, 8, 8]] [[[8, 8, 8, 8]]] = [[8, 8, 8, 8], [8, 8, 8, 8]] ∧
    ipNodup (buildAddrs [[8, 8, 8, 8]] [[[8, 8, 8, 8]]]) = false := by decide

/-- Claim C4, amended: in the part_003 variant (which folds fallbacks in
through `add`), provided the resolution of the URL host is itself
duplicate-free, the constructed list equals the host addresses followed by
each fallback resolution in order, deduplicated under IP equality with
insertion order preserved, and no IP appears twice in it. -/
theorem buildIPs_dedup (hostIPs : List IP) (fallbacks : List (List IP))
    (hnd : ipNodup hostIPs = true) :
    buildIPs hostIPs fallbacks = dedupFirst (hostIPs ++ fallbacks.flatten) ∧
    ipNodup (buildIPs hostIPs fallbacks) = true := by
  have h3 : buildIPs hostIPs fallbacks = add hostIPs fallbacks.flatten :=
    buildIPs_eq_add_flatten _ _
  refine ⟨?_, ?_⟩
  · rw [h3, dedupFirst_append, dedupFirst_of_nodup _ hnd]
  · rw [h3]; exact add_nodup _ _ hnd

/-- Claim C4, witness: host 8.8.8.8 with fallbacks resolving to 8.8.8.8 and
4.4.4.4 builds the deduplicated list. -/
theorem buildIPs_dedup_witness :
    buildIPs [[8, 8, 8, 8]] [[[8, 8, 8, 8]], [[4, 4, 4, 4]]]
      = dedupFirst ([[8, 8, 8, 8]] ++ ([[[8, 8, 8, 8]], [[4, 4, 4, 4]]] : List (List IP)).flatten) ∧
    ipNodup (buildIPs [[8, 8, 8, 8]] [[[8, 8, 8, 8]], [[4, 4, 4, 4]]]) = true :=
  buildIPs_dedup [[8, 8, 8, 8]] [[[8, 8, 8, 8]], [[4, 4, 4, 4]]] (by decide)

/-- Claim C5: writing the rotation of `preferAddr` over any stored list of
the same length as the snapshot `addrs` — in particular the snapshot itself —
yields, for a win at index `i` with `0 < i < len(addrs)`, exactly
`[addrs[i], addrs[0], …, addrs[i-1], addrs[i+1], …]`; for `i = 0` the stored
list is unchanged. -/
theorem preferAddr_rotation (stored addrs : List IP) (i : Nat)
    (hlen : stored.length = addrs.length) :
    preferAddr stored addrs 0 = stored ∧
    (0 < i → i < addrs.length →
      preferAddr stored addrs i = addrs.getD i [] :: (addrs.take i ++ addrs.drop (i + 1))) := by
  refine ⟨by simp [preferAddr], fun hi0 hin => ?_⟩
  have hne : i ≠ 0 := by omega
  have hti : (addrs.take i).length = i := by simp; omega
  have hs1 : goCopy stored 0 [addrs.getD i []] = addrs.getD i [] :: stored.drop 1 := by
    have h1a : ([addrs.getD i []] : List IP).length ≤ stored.length - 0 := by
      simp [hlen]; omega
    unfold goCopy
    rw [List.take_of_length_le h1a]
    simp
  have hs2 : goCopy (addrs.getD i [] :: stored.drop 1) 1 (addrs.take i)
      = addrs.getD i [] :: (addrs.take i ++ stored.drop (i + 1)) := by
    have h2a : (addrs.take i).length ≤ (addrs.getD i [] :: stored.drop 1).length - 1 := by
      simp [hti, hlen]; omega
    unfold goCopy
    rw [List.take_of_length_le h2a, hti]
    simp [List.drop_drop, Nat.add_comm]
  have hs3 : goCopy (addrs.getD i [] :: (addrs.take i ++ stored.drop (i + 1))) (i + 1)
        (addrs.drop (i + 1))
      = addrs.getD i [] :: (addrs.take i ++ addrs.drop (i + 1)) := by
    have h3a : (addrs.drop (i + 1)).length
        ≤ (addrs.getD i [] :: (addrs.take i ++ stored.drop (i + 1))).length - (i + 1) := by
      simp [hti, hlen]
    have htake : (addrs.getD i [] :: (addrs.take i ++ stored.drop (i + 1))).take (i + 1)
        = addrs.getD i [] :: addrs.take i := by
      rw [List.take_succ_cons]
      congr 1
      rw [List.take_append_eq_append_take, hti]
      simp [List.take_take]
    have hdrop : (addrs.getD i [] :: (addrs.take i ++ stored.drop (i + 1))).drop
        (i + 1 + (addrs.drop (i + 1)).length) = [] := by
      apply List.drop_eq_nil_of_le
      simp [hti, hlen]; omega
    unfold goCopy
    rw [List.take_of_length_le h3a, htake, hdrop, List.append_nil]
    simp
  unfold preferAddr
  rw [if_neg hne]
  dsimp only
  rw [hs1, hs2, hs3]

/-- Claim C5, witness at the snapshot `[[1], [2], [3]]` with a win at index
1: promotion yields `[[2], [1], [3]]`, and index 0 leaves the list
unchanged. -/
theorem preferAddr_rotation_witness :
    preferAddr [[1], [2], [3]] [[1], [2], [3]] 0 = [[1], [2], [3]] ∧
    preferAddr [[1], [2], [3]] [[1], [2], [3]] 1
      = ([[1], [2], [3]] : List IP).getD 1 []
        :: (([[1], [2], [3]] : List IP).take 1 ++ ([[1], [2], [3]] : List IP).drop (1 + 1)) := by
  have h := preferAddr_rotation [[1], [2], [3]] [[1], [2], [3]] 1 (by decide)
  exact ⟨h.1, h.2 (by decide) (by decide)⟩

/-- Claim C6: on a successful query of length ≥ 2, the response of length
≥ 2 carries the first two bytes of the original query (the saved ID) in its
first two bytes, and a response of length < 2 is returned verbatim with the
ID patching suppressed. -/
theorem doQuery_patches_response_id (q : List Nat) (env : HTTPEnv)
    (hq : 2 ≤ q.length) (hok : env.reqOk = true) (hdo : env.doResult = some 200) :
    ∃ r, (doQuery q env).response = some r ∧
      (2 ≤ env.body.length →
        r = withID env.body (q.getD 0 0) (q.getD 1 0) ∧ r.take 2 = q.take 2) ∧
      (env.body.length < 2 → r = env.body) := by
  rcases q with _ | ⟨a, _ | ⟨b, rest⟩⟩
  · simp at hq
  · simp at hq
  · have hne : ¬((a :: b :: rest).length < 2) := by
      simp only [List.length_cons]; omega
    refine ⟨if 2 ≤ env.body.length then withID env.body a b else env.body, ?_, ?_, ?_⟩
    · unfold doQuery
      rw [if_neg hne]
      simp [hok, hdo, withID, List.getD_cons_zero, List.getD_cons_succ]
    · intro hb
      rw [if_pos hb]
      exact ⟨by simp [List.getD], by simp [withID]⟩
    · intro hb
      rw [if_neg (by omega)]

/-- Claim C6, witness: the query `[1, 2]` against a 200 response with body
`[9, 9, 9]` returns `[1, 2, 9]` — the body with the saved ID patched in. -/
theorem doQuery_patches_response_id_witness :
    (doQuery [1, 2] { reqOk := true, doResult := some 200, body := [9, 9, 9] }).response
      = some [1, 2, 9] := by
  obtain ⟨r, h1, h2, _⟩ :=
    doQuery_patches_response_id [1, 2] { reqOk := true, doResult := some 200, body := [9, 9, 9] }
      (by decide) rfl rfl
  rw [h1, (h2 (by decide)).1]
  rfl

/-- Claim C7: in the double-checked install model of `Get`, once any
interleaving of phase-2 steps has bound hostname `h` to set `s`, a further
`Get` completing its install phase with any freshly built set returns `s`
(discarding the loser), and after any further interleaved steps the map
still binds `h` to `s`: the returned identity never changes. -/
theorem get_same_set_identity (m0 : HostMap) (pre post : List (String × SetId))
    (h : String) (sid s : SetId)
    (hl : lookupHost (runInstalls m0 pre) h = some s) :
    (install (runInstalls m0 pre) h sid).2 = s ∧
    lookupHost (runInstalls m0 (pre ++ post)) h = some s := by
  refine ⟨?_, ?_⟩
  · rw [install_found _ _ _ _ hl]
  · rw [runInstalls_append]
    exact runInstalls_preserve _ _ _ _ hl

/-- Claim C7, witness: after set 7 is installed for example.com, a racing
`Get` that built set 5 still returns 7, and a later install attempt with
set 9 leaves the binding at 7. -/
theorem get_same_set_identity_witness :
    (install (runInstalls [] [("example.com", 7)]) "example.com" 5).2 = 7 ∧
    lookupHost (runInstalls [] ([("example.com", 7)] ++ [("example.com", 9)]))
      "example.com" = some 7 :=
  get_same_set_identity [] [("example.com", 7)] [("example.com", 9)] "example.com" 5 7
    (by decide)

/-- Claim C8: for a successful query response of length ≤ 65535, the
forwarding worker issues exactly one write, whose buffer is the big-endian
16-bit length followed by exactly the response bytes; on no path of
`forwardQuery` are two separate writes issued. -/
theorem forwardQuery_single_combined_write (resp : List Nat) (writeN : List Nat → Option Nat)
    (hlen : resp.length ≤ 65535) :
    (forwardQuery (some resp) writeN).1
      = [[resp.length / 256, resp.length % 256] ++ resp] ∧
    ∀ (qres : Option (List Nat)) (w2 : List Nat → Option Nat),
      ((forwardQuery qres w2).1).length ≤ 1 := by
  have hd : resp.length / 256 % 256 = resp.length / 256 :=
    Nat.mod_eq_of_lt (Nat.div_lt_of_lt_mul (by omega))
  constructor
  · simp only [forwardQuery]
    rw [if_neg (by omega)]
    cases hw : writeN (be16 resp.length ++ resp) <;> simp [hw, be16, hd]
  · intro qres w2
    unfold forwardQuery
    split
    · simp
    · split
      · simp
      · dsimp only
        split <;> simp

/-- Claim C8, witness: a three-byte response is framed as the single write
`[0, 3, 9, 9, 9]`, and the write list has length one. -/
theorem forwardQuery_single_combined_write_witness :
    (forwardQuery (some [9, 9, 9]) (fun b => some b.length)).1 = [[0, 3] ++ [9, 9, 9]] ∧
    ((forwardQuery (some [9, 9, 9]) (fun b => some b.length)).1).length ≤ 1 := by
  have h := forwardQuery_single_combined_write [9, 9, 9] (fun b => some b.length) (by decide)
  refine ⟨?_, h.2 (some [9, 9, 9]) (fun b => some b.length)⟩
  rw [h.1]; decide

/-- Claim C9: on every path of the classified-error `doQuery` — bad query,
request-construction failure, send failure, non-200 status, or success —
either the classified error is nil or the response is the nil slice, so a
non-nil error is never returned together with a response. -/
theorem doQuery_error_means_nil_response (q : List Nat) (env : HTTPEnv) :
    (doQuery q env).qerr = none ∨ (doQuery q env).response = none := by
  unfold doQuery
  split
  · exact Or.inr rfl
  · split
    · exact Or.inr rfl
    · split
      · exact Or.inr rfl
      · split
        · exact Or.inr rfl
        · exact Or.inl rfl

/-- Claim C10: `Confirm` (for any parse result) and `Disconfirm` (for any
IP) leave the ordered IP sequence of the set unchanged — only the confirmed
slot may change. -/
theorem confirm_disconfirm_preserve_ips (s : IPSet) (parsed : Option IP) (ip : IP) :
    (IPSet.Confirm s parsed).ips = s.ips ∧ (IPSet.Disconfirm s ip).ips = s.ips := by
  constructor
  · cases parsed <;> rfl
  · cases hc : s.confirmed with
    | none => simp [IPSet.Disconfirm, hc]
    | some c =>
      rcases Bool.eq_false_or_eq_true (ipEqual ip c) with he | he <;>
        simp [IPSet.Disconfirm, hc, he]

end DoH
